import Mathlib

set_option maxHeartbeats 1000000

/-!
Shallow embedding of the wasm pixel editor core (src/lib.rs): an immutable
RGB pixel grid (`Image`) and a generic linear undo queue with drag-block
coalescing (`UndoQueue`), plus the session wrapper (`InternalState`).
Rust panics are modelled by an outer `Option` (`none` = panic); the
`im::Vector` of cells is modelled as a Lean `List`.
-/

/-- Rust struct `Rgb`: one 8-bit channel per color. Channels are modelled as
`Nat` (the byte values that reach them); equality is structural, matching the
derived `PartialEq`. -/
structure Rgb where
  r : Nat
  g : Nat
  b : Nat
  deriving DecidableEq

/-- Rust struct `Image`: a `width` x `height` pixel grid backed by an
`im::Vector<Rgb>` of cells in row-major order (index = y*width+x), modelled
as a Lean list. -/
structure Image where
  width : Nat
  height : Nat
  cells : List Rgb
  deriving DecidableEq

/-- The default background color (200,200,255) used by `Image::new`. -/
def defaultColor : Rgb := ⟨200, 200, 255⟩

/-- Rust `Image::new`: builds the cell vector by mapping the constant
background color over the range `0..width*height`. No dimension check is
performed. -/
def Image.new (width height : Nat) : Image :=
  { width := width, height := height,
    cells := (List.range (width * height)).map (fun _ => defaultColor) }

/-- Rust `Image::cells` (named `cellsBytes` here because `cells` is the field):
flattens the grid to channel-interleaved bytes, concatenating `[r,g,b]` per
cell in row-major order. -/
def Image.cellsBytes (img : Image) : List Nat :=
  img.cells.flatMap (fun rgb => [rgb.r, rgb.g, rgb.b])

/-- Rust `Image::brush`. The outer `Option` models a panic: `none` when the
color vector has fewer than 3 bytes (`color[0..2]` indexing panics) or when
the row-major index `y*width+x` falls outside the cell vector
(`self.cells[index]` panics). `some none` models the `None` return (cell
already has that color); `some (some img)` the `Some(new image)` return.
The panic order follows the source: the color struct is built before the
cell is read. -/
def Image.brush (img : Image) (x y : Nat) (color : List Nat) : Option (Option Image) :=
  let index := y * img.width + x
  match color with
  | r :: g :: b :: _ =>
    let c : Rgb := ⟨r, g, b⟩
    match img.cells[index]? with
    | none => none
    | some cell =>
      if cell = c then some none
      else some (some { width := img.width, height := img.height,
                        cells := img.cells.set index c })
  | _ => none

/-- Rust enum `Mode` of the undo queue. -/
inductive Mode where
  | Normal
  | StartBlock
  | InBlock
  deriving DecidableEq

/-- Rust struct `UndoQueue<T>`: entry list, cursor index and mode. -/
structure UndoQueue (T : Type) where
  queue : List T
  index : Nat
  mode : Mode
  deriving DecidableEq

/-- Rust `UndoQueue::new`: a single seeded entry, cursor 0, Normal mode. -/
def UndoQueue.new {T : Type} (entry : T) : UndoQueue T :=
  { queue := [entry], index := 0, mode := Mode.Normal }

/-- Rust `UndoQueue::current`: `queue[index].clone()`. The `Option` models the
panic when the index is out of range (unreachable for reachable queues). -/
def UndoQueue.current {T : Type} (q : UndoQueue T) : Option T :=
  q.queue[q.index]?

/-- Rust `UndoQueue::start_undo_block`: unconditionally sets mode to StartBlock. -/
def UndoQueue.start_undo_block {T : Type} (q : UndoQueue T) : UndoQueue T :=
  { q with mode := Mode.StartBlock }

/-- Rust `UndoQueue::close_undo_block`: unconditionally sets mode to Normal. -/
def UndoQueue.close_undo_block {T : Type} (q : UndoQueue T) : UndoQueue T :=
  { q with mode := Mode.Normal }

/-- Rust `UndoQueue::push`: in Normal mode truncate the queue to `index+1`
entries, append, advance the cursor; in StartBlock mode do the same and switch
to InBlock; in InBlock mode overwrite `queue[index]` in place. -/
def UndoQueue.push {T : Type} (q : UndoQueue T) (entry : T) : UndoQueue T :=
  match q.mode with
  | Mode.Normal =>
    { q with queue := q.queue.take (q.index + 1) ++ [entry], index := q.index + 1 }
  | Mode.StartBlock =>
    { queue := q.queue.take (q.index + 1) ++ [entry], index := q.index + 1,
      mode := Mode.InBlock }
  | Mode.InBlock =>
    { q with queue := q.queue.set q.index entry }

/-- Rust `UndoQueue::undo`: decrement the cursor if it is at least 1. -/
def UndoQueue.undo {T : Type} (q : UndoQueue T) : UndoQueue T :=
  if 1 ≤ q.index then { q with index := q.index - 1 } else q

/-- Rust `UndoQueue::redo`: increment the cursor if it is below `len - 1`. -/
def UndoQueue.redo {T : Type} (q : UndoQueue T) : UndoQueue T :=
  if q.index < q.queue.length - 1 then { q with index := q.index + 1 } else q

/-- Rust struct `InternalState`: the session handle holding the undo queue of
images. -/
structure InternalState where
  undo_queue : UndoQueue Image
  deriving DecidableEq

/-- Rust `InternalState::new`: seeds the queue with a fresh image. -/
def InternalState.new (width height : Nat) : InternalState :=
  { undo_queue := UndoQueue.new (Image.new width height) }

/-- Rust `InternalState::image`: the current image (Option models the
unreachable panic of `current`). -/
def InternalState.image (s : InternalState) : Option Image :=
  s.undo_queue.current

/-- Rust `InternalState::undo`. -/
def InternalState.undo (s : InternalState) : InternalState :=
  { undo_queue := s.undo_queue.undo }

/-- Rust `InternalState::redo`. -/
def InternalState.redo (s : InternalState) : InternalState :=
  { undo_queue := s.undo_queue.redo }

/-- Rust `InternalState::start_undo_block`. -/
def InternalState.start_undo_block (s : InternalState) : InternalState :=
  { undo_queue := s.undo_queue.start_undo_block }

/-- Rust `InternalState::close_undo_block`. -/
def InternalState.close_undo_block (s : InternalState) : InternalState :=
  { undo_queue := s.undo_queue.close_undo_block }

/-- Rust `InternalState::brush`: reads the current image, applies
`Image::brush`, and pushes the new image only when one is produced. `none`
models a propagated panic (from `current` or from `brush`), in which case the
push is never reached. -/
def InternalState.brush (s : InternalState) (x y : Nat) (color : List Nat) :
    Option InternalState :=
  match s.undo_queue.current with
  | none => none
  | some image =>
    match image.brush x y color with
    | none => none
    | some none => some s
    | some (some newImage) => some { undo_queue := s.undo_queue.push newImage }

/-- Iterated `undo`. -/
def undoIter {T : Type} : Nat → UndoQueue T → UndoQueue T
  | 0, q => q
  | k + 1, q => undoIter k q.undo

/-- Iterated `redo`. -/
def redoIter {T : Type} : Nat → UndoQueue T → UndoQueue T
  | 0, q => q
  | k + 1, q => redoIter k q.redo

/-- The undo-queue states reachable from construction by any sequence of the
five public operations. -/
inductive Reachable {T : Type} : UndoQueue T → Prop where
  | new (entry : T) : Reachable (UndoQueue.new entry)
  | push {q : UndoQueue T} (entry : T) : Reachable q → Reachable (q.push entry)
  | undo {q : UndoQueue T} : Reachable q → Reachable q.undo
  | redo {q : UndoQueue T} : Reachable q → Reachable q.redo
  | start {q : UndoQueue T} : Reachable q → Reachable q.start_undo_block
  | close {q : UndoQueue T} : Reachable q → Reachable q.close_undo_block

/-- Reachability restricted to sequences that never call `undo` while the
queue is in InBlock mode (i.e. mid-gesture). -/
inductive ReachableNB {T : Type} : UndoQueue T → Prop where
  | new (entry : T) : ReachableNB (UndoQueue.new entry)
  | push {q : UndoQueue T} (entry : T) : ReachableNB q → ReachableNB (q.push entry)
  | undo {q : UndoQueue T} (h : q.mode ≠ Mode.InBlock) :
      ReachableNB q → ReachableNB q.undo
  | redo {q : UndoQueue T} : ReachableNB q → ReachableNB q.redo
  | start {q : UndoQueue T} : ReachableNB q → ReachableNB q.start_undo_block
  | close {q : UndoQueue T} : ReachableNB q → ReachableNB q.close_undo_block

/-! ## Helper lemmas about the byte flattening -/

/-- Flattening three bytes per cell triples the length. -/
theorem flatMap3_length (l : List Rgb) :
    (l.flatMap fun c => [c.r, c.g, c.b]).length = 3 * l.length := by
  induction l with
  | nil => rfl
  | cons a t ih =>
    rw [List.flatMap_cons, List.length_append, ih, List.length_cons]
    show 3 + 3 * t.length = 3 * (t.length + 1)
    ring

/-- Reading past three leading elements. -/
theorem getElem3_cons (x1 x2 x3 : Nat) (rest : List Nat) (n : Nat) :
    (x1 :: x2 :: x3 :: rest)[n + 3]? = rest[n]? := by
  have e : n + 3 = n + 2 + 1 := rfl
  rw [e, List.getElem?_cons_succ, List.getElem?_cons_succ, List.getElem?_cons_succ]

/-- The bytes of cell i sit at positions 3i, 3i+1, 3i+2 of the flattening. -/
theorem flatMap3_getElem (l : List Rgb) (i : Nat) (c : Rgb)
    (h : l[i]? = some c) :
    (l.flatMap fun x => [x.r, x.g, x.b])[3 * i]? = some c.r ∧
    (l.flatMap fun x => [x.r, x.g, x.b])[3 * i + 1]? = some c.g ∧
    (l.flatMap fun x => [x.r, x.g, x.b])[3 * i + 2]? = some c.b := by
  induction l generalizing i with
  | nil => simp at h
  | cons a t ih =>
    cases i with
    | zero =>
      simp only [List.getElem?_cons_zero, Option.some.injEq] at h
      subst h
      refine ⟨?_, ?_, ?_⟩ <;> simp [List.flatMap_cons]
    | succ i =>
      have h2 : t[i]? = some c := by simpa using h
      have ih2 := ih i h2
      have e1 : 3 * (i + 1) = 3 * i + 3 := by ring
      have e2 : 3 * (i + 1) + 1 = 3 * i + 1 + 3 := by ring
      have e3 : 3 * (i + 1) + 2 = 3 * i + 2 + 3 := by ring
      refine ⟨?_, ?_, ?_⟩
      · rw [e1, List.flatMap_cons, List.cons_append, List.cons_append,
          List.cons_append, List.nil_append, getElem3_cons]
        exact ih2.1
      · rw [e2, List.flatMap_cons, List.cons_append, List.cons_append,
          List.cons_append, List.nil_append, getElem3_cons]
        exact ih2.2.1
      · rw [e3, List.flatMap_cons, List.cons_append, List.cons_append,
          List.cons_append, List.nil_append, getElem3_cons]
        exact ih2.2.2

/-! ## C7 -/

/-- C7: readAll (Image::cells) returns a byte sequence of length exactly
width*height*3, channel-interleaved in row-major order: the bytes at
positions 3*(y*width+x), +1, +2 are the red, green and blue channels of the
cell at (x,y). -/
theorem spec_C7 (img : Image) (x y : Nat) (c : Rgb)
    (hlen : img.cells.length = img.width * img.height)
    (hx : x < img.width) (hy : y < img.height)
    (hc : img.cells[y * img.width + x]? = some c) :
    img.cellsBytes.length = img.width * img.height * 3 ∧
    img.cellsBytes[3 * (y * img.width + x)]? = some c.r ∧
    img.cellsBytes[3 * (y * img.width + x) + 1]? = some c.g ∧
    img.cellsBytes[3 * (y * img.width + x) + 2]? = some c.b := by
  refine ⟨?_, flatMap3_getElem img.cells _ c hc⟩
  show (img.cells.flatMap fun rgb => [rgb.r, rgb.g, rgb.b]).length = _
  rw [flatMap3_length, hlen]
  ring

/-- C7 witness: evaluated on a fresh 2x1 grid at the cell (1,0). -/
theorem spec_C7_witness :
    (Image.new 2 1).cellsBytes.length = 2 * 1 * 3 ∧
    (Image.new 2 1).cellsBytes[3 * (0 * 2 + 1)]? = some (200 : Nat) ∧
    (Image.new 2 1).cellsBytes[3 * (0 * 2 + 1) + 1]? = some (200 : Nat) ∧
    (Image.new 2 1).cellsBytes[3 * (0 * 2 + 1) + 2]? = some (255 : Nat) :=
  spec_C7 (Image.new 2 1) 1 0 defaultColor rfl (by decide) (by decide) (by decide)

/-! ## C8 -/

/-- C8 counterexample: create(0,5) does not fail with InvalidDimension; it
returns an ordinary grid value with zero cells. -/
theorem spec_C8_cex :
    (Image.new 0 5).width = 0 ∧ (Image.new 0 5).height = 5 ∧
    (Image.new 0 5).cells = [] := by
  exact ⟨rfl, rfl, rfl⟩

/-- C8 amended: create(width, height) never fails; for every width and height
(zero included) it returns a grid of exactly width*height cells, each equal to
the default background color (200,200,255). -/
theorem spec_C8 (w h : Nat) :
    (Image.new w h).width = w ∧ (Image.new w h).height = h ∧
    (Image.new w h).cells.length = w * h ∧
    (Image.new w h).cells = List.replicate (w * h) defaultColor := by
  refine ⟨rfl, rfl, ?_, ?_⟩
  · simp [Image.new]
  · simp [Image.new, List.map_const']

/-! ## C1 -/

/-- Case formula for an in-range brush call: the result is decided by whether
the target cell already holds the color. -/
theorem Image.brush_in_range (img : Image) (x y r g b : Nat) (rest : List Nat)
    (hidx : y * img.width + x < img.cells.length) :
    img.brush x y (r :: g :: b :: rest) =
      if img.cells[y * img.width + x] = (⟨r, g, b⟩ : Rgb) then some none
      else some (some { width := img.width, height := img.height,
                        cells := img.cells.set (y * img.width + x) ⟨r, g, b⟩ }) := by
  have hcell : img.cells[y * img.width + x]? =
      some (img.cells[y * img.width + x]) := List.getElem?_eq_getElem hidx
  simp only [Image.brush, hcell]

/-- C1: for a well-formed grid and in-range coordinates, brush returns None
exactly when the target cell already equals the color; otherwise it does
return Some new grid, of the same dimensions, whose target cell is the color
and whose every other cell is unchanged. -/
theorem spec_C1 (img : Image) (x y r g b : Nat) (rest : List Nat)
    (hlen : img.cells.length = img.width * img.height)
    (hx : x < img.width) (hy : y < img.height) :
    (img.brush x y (r :: g :: b :: rest) = some none ↔
      img.cells[y * img.width + x]? = some ⟨r, g, b⟩) ∧
    (img.cells[y * img.width + x]? ≠ some (⟨r, g, b⟩ : Rgb) →
      ∃ img2, img.brush x y (r :: g :: b :: rest) = some (some img2) ∧
        img2.width = img.width ∧ img2.height = img.height ∧
        img2.cells[y * img.width + x]? = some ⟨r, g, b⟩ ∧
        ∀ j, j ≠ y * img.width + x → img2.cells[j]? = img.cells[j]?) := by
  have hidx : y * img.width + x < img.cells.length := by
    have h1 : y + 1 ≤ img.height := hy
    have h2 : (y + 1) * img.width ≤ img.height * img.width :=
      Nat.mul_le_mul_right _ h1
    have h3 : (y + 1) * img.width = y * img.width + img.width := by ring
    have h4 : img.height * img.width = img.width * img.height := Nat.mul_comm _ _
    omega
  have hcell : img.cells[y * img.width + x]? =
      some (img.cells[y * img.width + x]) := List.getElem?_eq_getElem hidx
  rw [Image.brush_in_range img x y r g b rest hidx]
  by_cases hcc : img.cells[y * img.width + x] = (⟨r, g, b⟩ : Rgb)
  · refine ⟨?_, ?_⟩
    · simp [hcc, hcell]
    · intro hne
      rw [hcell, hcc] at hne
      exact absurd rfl hne
  · refine ⟨?_, ?_⟩
    · simp only [if_neg hcc, hcell]
      constructor
      · intro h2
        simp at h2
      · intro h2
        exact absurd (Option.some.inj h2) hcc
    · intro hne
      refine ⟨Image.mk img.width img.height
          (img.cells.set (y * img.width + x) ⟨r, g, b⟩),
        by rw [if_neg hcc], rfl, rfl, ?_, ?_⟩
      · show (img.cells.set (y * img.width + x) ⟨r, g, b⟩)[y * img.width + x]? = _
        rw [List.getElem?_set_self', hcell]
        rfl
      · intro j hj
        show (img.cells.set (y * img.width + x) ⟨r, g, b⟩)[j]? = img.cells[j]?
        exact List.getElem?_set_ne (fun h => hj h.symm)

/-- C1 witness: painting (0,0) of a fresh 2x2 grid with (1,2,3) is a change:
the no-change test agrees with the cell lookup and a new grid is returned
with the target cell set and the rest untouched. -/
theorem spec_C1_witness :
    ((Image.new 2 2).brush 0 0 [1, 2, 3] = some none ↔
      (Image.new 2 2).cells[0 * (Image.new 2 2).width + 0]? = some ⟨1, 2, 3⟩) ∧
    (∃ img2, (Image.new 2 2).brush 0 0 [1, 2, 3] = some (some img2) ∧
      img2.width = (Image.new 2 2).width ∧
      img2.height = (Image.new 2 2).height ∧
      img2.cells[0 * (Image.new 2 2).width + 0]? = some ⟨1, 2, 3⟩ ∧
      ∀ j, j ≠ 0 * (Image.new 2 2).width + 0 →
        img2.cells[j]? = (Image.new 2 2).cells[j]?) :=
  ⟨(spec_C1 (Image.new 2 2) 0 0 1 2 3 [] rfl (by decide) (by decide)).1,
    (spec_C1 (Image.new 2 2) 0 0 1 2 3 [] rfl (by decide) (by decide)).2
      (by decide)⟩

/-! ## C10 -/

/-- C10: a color vector with at least 3 bytes makes an in-range brush call
return normally, and only its first three bytes matter; a color vector with
fewer than 3 bytes makes the call panic even for an in-range index. -/
theorem spec_C10 (img : Image) (x y r g b : Nat) (rest : List Nat)
    (short : List Nat)
    (hidx : y * img.width + x < img.cells.length)
    (hshort : short.length < 3) :
    (img.brush x y (r :: g :: b :: rest)).isSome = true ∧
    img.brush x y (r :: g :: b :: rest) = img.brush x y [r, g, b] ∧
    img.brush x y short = none := by
  refine ⟨?_, rfl, ?_⟩
  · have hcell : img.cells[y * img.width + x]? =
        some (img.cells[y * img.width + x]) := List.getElem?_eq_getElem hidx
    simp only [Image.brush, hcell]
    by_cases hcc : img.cells[y * img.width + x] = (⟨r, g, b⟩ : Rgb) <;>
      simp [hcc]
  · rcases short with _ | ⟨a1, _ | ⟨a2, _ | ⟨a3, t⟩⟩⟩
    · rfl
    · rfl
    · rfl
    · exact absurd hshort (by simp)

/-- C10 witness: evaluated on a fresh 1x1 grid with a 4-byte and a 1-byte
color vector. -/
theorem spec_C10_witness :
    ((Image.new 1 1).brush 0 0 [0, 0, 0, 9]).isSome = true ∧
    (Image.new 1 1).brush 0 0 [0, 0, 0, 9] = (Image.new 1 1).brush 0 0 [0, 0, 0] ∧
    (Image.new 1 1).brush 0 0 [5] = none :=
  spec_C10 (Image.new 1 1) 0 0 0 0 0 [9] [5] (by decide) (by decide)

/-! ## C4 -/

/-- C4 counterexample: on a 2x2 grid, x = 2 is out of range (x equals the
width), yet the brush call is not rejected: it paints the aliased cell at
row-major index 2 and pushes a new history entry, so the history is modified. -/
theorem spec_C4_cex :
    (InternalState.new 2 2).undo_queue.queue.length = 1 ∧
    ((InternalState.new 2 2).brush 2 0 [0, 0, 0]).map
      (fun s => s.undo_queue.queue.length) = some 2 := by
  exact ⟨rfl, by decide⟩

/-- A 3-byte brush call whose computed index lies inside the cell vector
returns a value (no panic), whatever the coordinates were. -/
theorem Image.brush_total_of_lt (img : Image) (x y r g b : Nat)
    (rest : List Nat)
    (hidx : y * img.width + x < img.cells.length) :
    (img.brush x y (r :: g :: b :: rest)).isSome = true := by
  have hcell : img.cells[y * img.width + x]? =
      some (img.cells[y * img.width + x]) := List.getElem?_eq_getElem hidx
  simp only [Image.brush, hcell]
  by_cases hcc : img.cells[y * img.width + x] = (⟨r, g, b⟩ : Rgb) <;>
    simp [hcc]

/-- C4 amended: out-of-range coordinates are not rejected with an OutOfBounds
error. When the computed row-major index falls outside the cell vector, brush
panics (modelled: no value is returned) and applyBrush propagates the panic
with no history push ever reached; when an out-of-range x still computes an
index that aliases a cell of a later row, the write is not rejected either:
the call returns normally as if in range and can modify grid and history
(the counterexample shows the history growing). -/
theorem spec_C4 (s : InternalState) (img : Image) (x y r g b : Nat)
    (rest : List Nat) (img2 : Image) (x2 y2 : Nat)
    (hcur : s.undo_queue.current = some img)
    (hidx : img.cells.length ≤ y * img.width + x)
    (hoob2 : img2.width ≤ x2)
    (hidx2 : y2 * img2.width + x2 < img2.cells.length) :
    img.brush x y (r :: g :: b :: rest) = none ∧
    s.brush x y (r :: g :: b :: rest) = none ∧
    (img2.brush x2 y2 (r :: g :: b :: rest)).isSome = true := by
  have hnone : img.cells[y * img.width + x]? = none :=
    List.getElem?_eq_none hidx
  have hb : img.brush x y (r :: g :: b :: rest) = none := by
    simp only [Image.brush, hnone]
  refine ⟨hb, ?_, Image.brush_total_of_lt img2 x2 y2 r g b rest hidx2⟩
  simp only [InternalState.brush, hcur, hb]

/-- C4 witness: painting pixel (5,0) of a 1x1 session panics and the panic
propagates through applyBrush; painting (2,0) on a 2x2 grid, with x equal to
the width, still returns normally. -/
theorem spec_C4_witness :
    (Image.new 1 1).brush 5 0 [0, 0, 0] = none ∧
    (InternalState.new 1 1).brush 5 0 [0, 0, 0] = none ∧
    ((Image.new 2 2).brush 2 0 [0, 0, 0]).isSome = true :=
  spec_C4 (InternalState.new 1 1) (Image.new 1 1) 5 0 0 0 0 [] (Image.new 2 2)
    2 0 rfl (by decide) (by decide) (by decide)

/-! ## Helper lemmas about the undo queue -/

theorem UndoQueue.undo_queue_eq {T : Type} (q : UndoQueue T) :
    q.undo.queue = q.queue := by
  unfold UndoQueue.undo
  split <;> rfl

theorem UndoQueue.undo_mode_eq {T : Type} (q : UndoQueue T) :
    q.undo.mode = q.mode := by
  unfold UndoQueue.undo
  split <;> rfl

theorem UndoQueue.undo_index_eq {T : Type} (q : UndoQueue T) :
    q.undo.index = q.index - 1 := by
  unfold UndoQueue.undo
  split
  · rfl
  · next h => show q.index = q.index - 1; omega

theorem UndoQueue.redo_queue_eq {T : Type} (q : UndoQueue T) :
    q.redo.queue = q.queue := by
  unfold UndoQueue.redo
  split <;> rfl

theorem UndoQueue.redo_mode_eq {T : Type} (q : UndoQueue T) :
    q.redo.mode = q.mode := by
  unfold UndoQueue.redo
  split <;> rfl

theorem UndoQueue.redo_index_ite {T : Type} (q : UndoQueue T) :
    q.redo.index =
      if q.index < q.queue.length - 1 then q.index + 1 else q.index := by
  unfold UndoQueue.redo
  split
  · rfl
  · rfl

theorem UndoQueue.redo_index_min {T : Type} (q : UndoQueue T)
    (h : q.index < q.queue.length) :
    q.redo.index = min (q.index + 1) (q.queue.length - 1) := by
  rw [UndoQueue.redo_index_ite]
  split <;> omega

theorem UndoQueue.push_normal {T : Type} (q : UndoQueue T) (e : T)
    (hm : q.mode = Mode.Normal) :
    q.push e =
      { q with queue := q.queue.take (q.index + 1) ++ [e],
               index := q.index + 1 } := by
  unfold UndoQueue.push
  rw [hm]

theorem UndoQueue.push_startblock {T : Type} (q : UndoQueue T) (e : T)
    (hm : q.mode = Mode.StartBlock) :
    q.push e =
      { queue := q.queue.take (q.index + 1) ++ [e], index := q.index + 1,
        mode := Mode.InBlock } := by
  unfold UndoQueue.push
  rw [hm]

theorem UndoQueue.push_inblock {T : Type} (q : UndoQueue T) (e : T)
    (hm : q.mode = Mode.InBlock) :
    q.push e = { q with queue := q.queue.set q.index e } := by
  unfold UndoQueue.push
  rw [hm]

theorem UndoQueue.push_index_lt {T : Type} (q : UndoQueue T) (e : T)
    (h : q.index < q.queue.length) :
    (q.push e).index < (q.push e).queue.length := by
  rcases hm : q.mode with _ | _ | _
  · rw [UndoQueue.push_normal q e hm]
    simp only [List.length_append, List.length_take, List.length_cons,
      List.length_nil]
    omega
  · rw [UndoQueue.push_startblock q e hm]
    simp only [List.length_append, List.length_take, List.length_cons,
      List.length_nil]
    omega
  · rw [UndoQueue.push_inblock q e hm]
    simp only [List.length_set]
    exact h

/-- Every reachable queue has a valid cursor. -/
theorem Reachable.index_lt {T : Type} {q : UndoQueue T} (h : Reachable q) :
    q.index < q.queue.length := by
  induction h with
  | new entry => show 0 < 1; omega
  | push entry hr ih => exact UndoQueue.push_index_lt _ _ ih
  | undo hr ih =>
    rw [UndoQueue.undo_queue_eq, UndoQueue.undo_index_eq]
    omega
  | redo hr ih =>
    rw [UndoQueue.redo_queue_eq, UndoQueue.redo_index_min _ ih]
    omega
  | start hr ih => exact ih
  | close hr ih => exact ih

theorem undoIter_queue {T : Type} (k : Nat) (q : UndoQueue T) :
    (undoIter k q).queue = q.queue := by
  induction k generalizing q with
  | zero => rfl
  | succ k ih =>
    show (undoIter k q.undo).queue = q.queue
    rw [ih, UndoQueue.undo_queue_eq]

theorem undoIter_index {T : Type} (k : Nat) (q : UndoQueue T) :
    (undoIter k q).index = q.index - k := by
  induction k generalizing q with
  | zero => rfl
  | succ k ih =>
    show (undoIter k q.undo).index = q.index - (k + 1)
    rw [ih, UndoQueue.undo_index_eq]
    omega

theorem redoIter_queue {T : Type} (k : Nat) (q : UndoQueue T) :
    (redoIter k q).queue = q.queue := by
  induction k generalizing q with
  | zero => rfl
  | succ k ih =>
    show (redoIter k q.redo).queue = q.queue
    rw [ih, UndoQueue.redo_queue_eq]

theorem redoIter_index {T : Type} (k : Nat) (q : UndoQueue T)
    (h : q.index < q.queue.length) :
    (redoIter k q).index = min (q.index + k) (q.queue.length - 1) := by
  induction k generalizing q with
  | zero => show q.index = min (q.index + 0) (q.queue.length - 1); omega
  | succ k ih =>
    show (redoIter k q.redo).index = min (q.index + (k + 1)) (q.queue.length - 1)
    have hr : q.redo.index < q.redo.queue.length := by
      rw [UndoQueue.redo_queue_eq, UndoQueue.redo_index_min _ h]
      omega
    rw [ih q.redo hr, UndoQueue.redo_queue_eq, UndoQueue.redo_index_min _ h]
    omega

/-! ## C2 -/

/-- C2: from a single-entry Normal stack, startBlock; push a; push b; push c;
closeBlock leaves exactly two entries with current c and mode Normal; one
subsequent undo makes current the original pre-block entry. -/
theorem spec_C2 {T : Type} (q : UndoQueue T) (e a b c : T)
    (hq : q.queue = [e]) (hi : q.index = 0) (hm : q.mode = Mode.Normal) :
    ((((q.start_undo_block).push a).push b).push c).close_undo_block.queue.length
        = 2 ∧
    ((((q.start_undo_block).push a).push b).push c).close_undo_block.current
        = some c ∧
    ((((q.start_undo_block).push a).push b).push c).close_undo_block.mode
        = Mode.Normal ∧
    ((((q.start_undo_block).push a).push b).push c).close_undo_block.undo.current
        = some e := by
  have hq2 : q = ⟨[e], 0, Mode.Normal⟩ := by
    cases q
    simp_all
  subst hq2
  refine ⟨rfl, ?_, rfl, ?_⟩
  · show ([e, c] : List T)[1]? = some c
    simp
  · show ([e, c] : List T)[0]? = some e
    simp

/-- C2 witness: evaluated with the integer stack seeded with 0 and the block
pushes 1, 2, 3. -/
theorem spec_C2_witness :
    (((((UndoQueue.new (0 : Nat)).start_undo_block).push 1).push 2).push
        3).close_undo_block.queue.length = 2 ∧
    (((((UndoQueue.new (0 : Nat)).start_undo_block).push 1).push 2).push
        3).close_undo_block.current = some 3 ∧
    (((((UndoQueue.new (0 : Nat)).start_undo_block).push 1).push 2).push
        3).close_undo_block.mode = Mode.Normal ∧
    (((((UndoQueue.new (0 : Nat)).start_undo_block).push 1).push 2).push
        3).close_undo_block.undo.current = some 0 :=
  spec_C2 (UndoQueue.new 0) 0 1 2 3 rfl rfl rfl

/-! ## C9 -/

/-- C9: closeBlock unconditionally sets mode Normal and startBlock
unconditionally sets mode StartBlock (the spec's BlockStart), neither touching
entries or cursor; undo and redo neither change the mode nor depend on it. -/
theorem spec_C9 {T : Type} (q : UndoQueue T) (l : List T) (i : Nat)
    (m m2 : Mode) :
    q.close_undo_block.mode = Mode.Normal ∧
    q.close_undo_block.queue = q.queue ∧
    q.close_undo_block.index = q.index ∧
    q.start_undo_block.mode = Mode.StartBlock ∧
    q.start_undo_block.queue = q.queue ∧
    q.start_undo_block.index = q.index ∧
    q.undo.mode = q.mode ∧ q.redo.mode = q.mode ∧
    (UndoQueue.undo ⟨l, i, m⟩).queue = (UndoQueue.undo ⟨l, i, m2⟩).queue ∧
    (UndoQueue.undo ⟨l, i, m⟩).index = (UndoQueue.undo ⟨l, i, m2⟩).index ∧
    (UndoQueue.redo ⟨l, i, m⟩).queue = (UndoQueue.redo ⟨l, i, m2⟩).queue ∧
    (UndoQueue.redo ⟨l, i, m⟩).index = (UndoQueue.redo ⟨l, i, m2⟩).index := by
  refine ⟨rfl, rfl, rfl, rfl, rfl, rfl,
    UndoQueue.undo_mode_eq q, UndoQueue.redo_mode_eq q, ?_, ?_, ?_, ?_⟩
  · rw [UndoQueue.undo_queue_eq, UndoQueue.undo_queue_eq]
  · rw [UndoQueue.undo_index_eq, UndoQueue.undo_index_eq]
  · rw [UndoQueue.redo_queue_eq, UndoQueue.redo_queue_eq]
  · rw [UndoQueue.redo_index_ite, UndoQueue.redo_index_ite]

/-! ## C5 -/

/-- C5: every reachable stack has a nonempty entry list, a valid cursor and a
total current(); undo repeated to or past the oldest entry clamps the cursor
at 0 and redo repeated to or past the newest clamps it at len-1, neither ever
touching the entry list. -/
theorem spec_C5 {T : Type} (q : UndoQueue T) (k1 k2 : Nat)
    (h : Reachable q) (hk1 : q.index ≤ k1)
    (hk2 : q.queue.length - 1 ≤ q.index + k2) :
    q.queue ≠ [] ∧ q.index < q.queue.length ∧ q.current.isSome = true ∧
    (undoIter k1 q).index = 0 ∧ (undoIter k1 q).queue = q.queue ∧
    (redoIter k2 q).index = q.queue.length - 1 ∧
    (redoIter k2 q).queue = q.queue := by
  have hinv := Reachable.index_lt h
  refine ⟨?_, hinv, ?_, ?_, undoIter_queue k1 q, ?_, redoIter_queue k2 q⟩
  · intro hnil
    rw [hnil] at hinv
    simp at hinv
  · show q.queue[q.index]?.isSome = true
    rw [List.getElem?_eq_getElem hinv]
    rfl
  · rw [undoIter_index]
    omega
  · rw [redoIter_index k2 q hinv]
    omega

/-- C5 witness: the freshly constructed integer stack, with undo iterated
twice and redo iterated three times. -/
theorem spec_C5_witness :
    (UndoQueue.new (0 : Nat)).queue ≠ [] ∧
    (UndoQueue.new (0 : Nat)).index < (UndoQueue.new (0 : Nat)).queue.length ∧
    (UndoQueue.new (0 : Nat)).current.isSome = true ∧
    (undoIter 2 (UndoQueue.new (0 : Nat))).index = 0 ∧
    (undoIter 2 (UndoQueue.new (0 : Nat))).queue = (UndoQueue.new (0 : Nat)).queue ∧
    (redoIter 3 (UndoQueue.new (0 : Nat))).index
        = (UndoQueue.new (0 : Nat)).queue.length - 1 ∧
    (redoIter 3 (UndoQueue.new (0 : Nat))).queue = (UndoQueue.new (0 : Nat)).queue :=
  spec_C5 (UndoQueue.new 0) 2 3 (Reachable.new 0) (by decide) (by decide)

/-! ## C3 -/

/-- A sequence of push calls, applied left to right. -/
def pushMany {T : Type} (q : UndoQueue T) (es : List T) : UndoQueue T :=
  es.foldl UndoQueue.push q

/-- Pushing in Normal mode with the cursor on the last entry appends one entry,
advances the cursor and stays in Normal mode. -/
theorem UndoQueue.push_normal_top {T : Type} (q : UndoQueue T) (e : T)
    (hm : q.mode = Mode.Normal) (ht : q.index + 1 = q.queue.length) :
    (q.push e).queue = q.queue ++ [e] ∧ (q.push e).index = q.index + 1 ∧
    (q.push e).mode = Mode.Normal := by
  rw [UndoQueue.push_normal q e hm]
  refine ⟨?_, rfl, hm⟩
  show q.queue.take (q.index + 1) ++ [e] = q.queue ++ [e]
  rw [List.take_of_length_le (by omega)]

/-- Sequential Normal-mode pushes with the cursor on the last entry advance
the cursor and grow the queue once per push. -/
theorem pushMany_normal_top {T : Type} (es : List T) (q : UndoQueue T)
    (hm : q.mode = Mode.Normal) (ht : q.index + 1 = q.queue.length) :
    (pushMany q es).index = q.index + es.length ∧
    (pushMany q es).queue.length = q.queue.length + es.length ∧
    (pushMany q es).mode = Mode.Normal := by
  induction es generalizing q with
  | nil => exact ⟨rfl, rfl, hm⟩
  | cons e t ih =>
    obtain ⟨hp1, hp2, hp3⟩ := UndoQueue.push_normal_top q e hm ht
    have ht2 : (q.push e).index + 1 = (q.push e).queue.length := by
      rw [hp1, hp2, List.length_append]
      simp
      omega
    obtain ⟨ih1, ih2, ih3⟩ := ih (q.push e) hp3 ht2
    have step : pushMany q (e :: t) = pushMany (q.push e) t := rfl
    rw [step]
    refine ⟨?_, ?_, ih3⟩
    · rw [ih1, hp2, List.length_cons]
      omega
    · rw [ih2, hp1, List.length_append, List.length_cons]
      simp
      omega

/-- C3: N sequential Normal-mode pushes from a fresh single-entry stack leave
the cursor at N and N+1 entries; and after an undo followed by a push in
Normal mode, redo is a no-op and current() is the value just pushed. -/
theorem spec_C3 {T : Type} (e v : T) (es : List T) (q : UndoQueue T)
    (hm : q.mode = Mode.Normal) (hi : q.index < q.queue.length) :
    (pushMany (UndoQueue.new e) es).index = es.length ∧
    (pushMany (UndoQueue.new e) es).queue.length = es.length + 1 ∧
    (q.undo.push v).redo = q.undo.push v ∧
    (q.undo.push v).current = some v := by
  obtain ⟨hp1, hp2, _⟩ := pushMany_normal_top es (UndoQueue.new e) rfl rfl
  have hu_q : q.undo.queue = q.queue := UndoQueue.undo_queue_eq q
  have hu_m : q.undo.mode = Mode.Normal := by
    rw [UndoQueue.undo_mode_eq]
    exact hm
  have hu_i : q.undo.index < q.undo.queue.length := by
    rw [UndoQueue.undo_index_eq, hu_q]
    omega
  have hpush := UndoQueue.push_normal q.undo v hu_m
  have htake : (q.undo.queue.take (q.undo.index + 1)).length = q.undo.index + 1 := by
    rw [List.length_take]
    omega
  have hp_q : (q.undo.push v).queue = q.undo.queue.take (q.undo.index + 1) ++ [v] := by
    rw [hpush]
  have hp_i : (q.undo.push v).index = q.undo.index + 1 := by
    rw [hpush]
  have hp_len : (q.undo.push v).queue.length = q.undo.index + 2 := by
    rw [hp_q, List.length_append, htake]
    rfl
  refine ⟨by rw [hp1]; simp [UndoQueue.new], by rw [hp2]; simp [UndoQueue.new]; omega,
    ?_, ?_⟩
  · have hcond : ¬ ((q.undo.push v).index < (q.undo.push v).queue.length - 1) := by
      rw [hp_i, hp_len]
      omega
    unfold UndoQueue.redo
    rw [if_neg hcond]
  · show (q.undo.push v).queue[(q.undo.push v).index]? = some v
    rw [hp_q, hp_i]
    nth_rewrite 2 [← htake]
    rw [List.getElem?_concat_length]

/-- C3 witness: two pushes onto a fresh integer stack, and undo-then-push on a
two-entry stack with the cursor on the newest entry. -/
theorem spec_C3_witness :
    (pushMany (UndoQueue.new (0 : Nat)) [1, 2]).index = 2 ∧
    (pushMany (UndoQueue.new (0 : Nat)) [1, 2]).queue.length = 2 + 1 ∧
    ((⟨[7, 8], 1, Mode.Normal⟩ : UndoQueue Nat).undo.push 9).redo
        = (⟨[7, 8], 1, Mode.Normal⟩ : UndoQueue Nat).undo.push 9 ∧
    ((⟨[7, 8], 1, Mode.Normal⟩ : UndoQueue Nat).undo.push 9).current = some 9 := by
  have h := spec_C3 0 9 [1, 2] (⟨[7, 8], 1, Mode.Normal⟩ : UndoQueue Nat)
    rfl (by decide)
  exact ⟨h.1, h.2.1, h.2.2.1, h.2.2.2⟩

/-! ## C6 -/

/-- C6 counterexample: undo issued mid-block is a reachable sequence that
leaves the stack in InBlock mode with an entry beyond the cursor. -/
theorem spec_C6_cex :
    Reachable ((((UndoQueue.new (0 : Nat)).start_undo_block).push 1).undo) ∧
    ((((UndoQueue.new (0 : Nat)).start_undo_block).push 1).undo).mode
        = Mode.InBlock ∧
    ¬ (((((UndoQueue.new (0 : Nat)).start_undo_block).push 1).undo).index
        = ((((UndoQueue.new (0 : Nat)).start_undo_block).push 1).undo).queue.length
          - 1) :=
  ⟨Reachable.undo (Reachable.push 1 (Reachable.start (Reachable.new 0))),
    by decide, by decide⟩

/-- Valid cursor, sitting on the last entry whenever the mode is InBlock. -/
def BlockTop {T : Type} (q : UndoQueue T) : Prop :=
  q.index < q.queue.length ∧
  (q.mode = Mode.InBlock → q.index + 1 = q.queue.length)

/-- The BlockTop invariant holds for every state reachable without mid-block
undo. -/
theorem ReachableNB.blockTop {T : Type} {q : UndoQueue T}
    (h : ReachableNB q) : BlockTop q := by
  induction h with
  | new entry =>
    exact ⟨by show 0 < 1; omega, by intro hm; cases hm⟩
  | push entry hr ih =>
    rename_i q1
    obtain ⟨ih1, ih2⟩ := ih
    rcases hm : q1.mode with _ | _ | _
    · rw [UndoQueue.push_normal q1 entry hm]
      refine ⟨?_, ?_⟩
      · simp only [List.length_append, List.length_take, List.length_cons,
          List.length_nil]
        omega
      · intro hmode
        rw [hm] at hmode
        cases hmode
    · rw [UndoQueue.push_startblock q1 entry hm]
      refine ⟨?_, ?_⟩
      · simp only [List.length_append, List.length_take, List.length_cons,
          List.length_nil]
        omega
      · intro _
        show q1.index + 1 + 1 = (q1.queue.take (q1.index + 1) ++ [entry]).length
        simp only [List.length_append, List.length_take, List.length_cons,
          List.length_nil]
        omega
    · rw [UndoQueue.push_inblock q1 entry hm]
      refine ⟨?_, ?_⟩
      · simp only [List.length_set]
        exact ih1
      · intro _
        show q1.index + 1 = (q1.queue.set q1.index entry).length
        rw [List.length_set]
        exact ih2 hm
  | undo hnb hr ih =>
    rename_i q1
    obtain ⟨ih1, ih2⟩ := ih
    refine ⟨?_, ?_⟩
    · rw [UndoQueue.undo_queue_eq, UndoQueue.undo_index_eq]
      omega
    · intro hmode
      rw [UndoQueue.undo_mode_eq] at hmode
      exact absurd hmode hnb
  | redo hr ih =>
    rename_i q1
    obtain ⟨ih1, ih2⟩ := ih
    by_cases hm : q1.mode = Mode.InBlock
    · have htop := ih2 hm
      have hfix : q1.redo.index = q1.index := by
        rw [UndoQueue.redo_index_ite, if_neg (by omega)]
      refine ⟨?_, ?_⟩
      · rw [UndoQueue.redo_queue_eq, hfix]
        exact ih1
      · intro _
        rw [UndoQueue.redo_queue_eq, hfix]
        exact htop
    · refine ⟨?_, ?_⟩
      · rw [UndoQueue.redo_queue_eq, UndoQueue.redo_index_min _ ih1]
        omega
      · intro hmode
        rw [UndoQueue.redo_mode_eq] at hmode
        exact absurd hmode hm
  | start hr ih =>
    obtain ⟨ih1, ih2⟩ := ih
    exact ⟨ih1, by intro hmode; cases hmode⟩
  | close hr ih =>
    obtain ⟨ih1, ih2⟩ := ih
    exact ⟨ih1, by intro hmode; cases hmode⟩

/-- C6 amended: whenever the mode is InBlock in a state reached without
calling undo mid-block, there are no entries beyond the cursor; an undo issued
while a block is open (which never happens in the intended drag protocol)
breaks this, as the counterexample shows. -/
theorem spec_C6 {T : Type} (q : UndoQueue T) (h : ReachableNB q)
    (hm : q.mode = Mode.InBlock) : q.index = q.queue.length - 1 := by
  have hb := ReachableNB.blockTop h
  have := hb.2 hm
  omega

/-- C6 witness: the first push of an open block leaves the cursor on the last
entry. -/
theorem spec_C6_witness :
    (((UndoQueue.new (0 : Nat)).start_undo_block).push 1).index
        = (((UndoQueue.new (0 : Nat)).start_undo_block).push 1).queue.length - 1 :=
  spec_C6 (((UndoQueue.new (0 : Nat)).start_undo_block).push 1)
    (ReachableNB.push 1 (ReachableNB.start (ReachableNB.new 0))) rfl
